import Mathlib

/-!
Verification of the LanShare file-transfer engine.

Shallow embedding of the network core (`src/network/server.py`,
`src/network/client.py`): path normalization and the download-single
route guard, range streaming, range-header parsing, the client download
engine with resume/retry, directory listing construction, parallel batch
downloads, the directory cache, and the archive handler's temp-file
cleanup.  Paths and headers are `List Char`, file contents are
`List Nat` (byte values), and machine state is passed explicitly.
-/

namespace LanShare

/-! ### Path normalization (posixpath.normpath / isabs)

`_handle_download_file` (server.py lines 205-211) computes
`safe_path = os.path.normpath(filepath)` and rejects with 403 when
`safe_path.startswith('..') or os.path.isabs(safe_path)`. -/

/-- `str.split('/')`: split on every slash, keeping empty pieces. -/
def splitSlash : List Char → List (List Char)
  | [] => [[]]
  | '/' :: rest => [] :: splitSlash rest
  | c :: rest =>
    match splitSlash rest with
    | [] => [[c]]
    | g :: gs => (c :: g) :: gs

/-- `os.path.isabs` on POSIX: the path starts with a slash. -/
def isabs (p : List Char) : Bool := decide (p.take 1 = ['/'])

/-- The `..` path component. -/
def ddot : List Char := ['.', '.']

/-- One step of posixpath.normpath's component loop: skip empty and `.`
components; append a component unless it is an upward step that cancels
against a previous real component, in which case pop. -/
def normpStep (abs : Bool) (acc : List (List Char)) (comp : List Char) :
    List (List Char) :=
  if comp = [] ∨ comp = ['.'] then acc
  else if comp ≠ ddot ∨ (abs = false ∧ acc = []) ∨
      (acc ≠ [] ∧ acc.getLast? = some ddot) then acc ++ [comp]
  else if acc ≠ [] then acc.dropLast
  else acc

/-- The component list produced by posixpath.normpath. -/
def normcomps (p : List Char) : List (List Char) :=
  (splitSlash p).foldl (normpStep (isabs p)) []

/-- `'/'.join(comps)`. -/
def joinSlash : List (List Char) → List Char
  | [] => []
  | [c] => c
  | c :: cs => c ++ '/' :: joinSlash cs

/-- Number of leading slashes posixpath.normpath preserves (two slashes
are kept verbatim per POSIX, three or more collapse to one). -/
def initialSlashes (p : List Char) : Nat :=
  if isabs p then
    if p.take 2 = ['/', '/'] ∧ p.take 3 ≠ ['/', '/', '/'] then 2 else 1
  else 0

/-- `os.path.normpath` on POSIX. -/
def normpath (p : List Char) : List Char :=
  let joined := List.replicate (initialSlashes p) '/' ++ joinSlash (normcomps p)
  if joined = [] then ['.'] else joined

/-- The guard of `_handle_download_file` (server.py lines 208-209):
`safe_path.startswith('..') or os.path.isabs(safe_path)`. -/
def safePathRejected (filepath : List Char) : Bool :=
  ddot.isPrefixOf (normpath filepath) || isabs (normpath filepath)

/-- What the download-single route does with a requested path: reject
with 403 Forbidden, or proceed to serve `os.path.join(base, safe_path)`
relative to the shared root. -/
inductive DownloadRoute where
  | forbidden
  | proceed (safePath : List Char)
  deriving DecidableEq, Repr

/-- The routing decision of `_handle_download_file` (server.py lines
205-213): normalize, reject escapes and absolute paths, otherwise go on
to serve the normalized relative path under the shared root. -/
def downloadFileRoute (filepath : List Char) : DownloadRoute :=
  if safePathRejected filepath then .forbidden
  else .proceed (normpath filepath)

/-! Facts about normalized components: upward `..` components can only
survive at the front of the component list, and never for an absolute
path. -/

/-- Every `..` in the list sits in a leading run. -/
def DdotFront (l : List (List Char)) : Prop :=
  ∃ k rest, l = List.replicate k ddot ++ rest ∧ ddot ∉ rest

theorem ddotFront_nil : DdotFront [] := ⟨0, [], rfl, by simp⟩

theorem ddotFront_step (abs : Bool) (acc : List (List Char))
    (comp : List Char) (h : DdotFront acc) :
    DdotFront (normpStep abs acc comp) := by
  obtain ⟨k, rest, hacc, hrest⟩ := h
  unfold normpStep
  split
  · exact ⟨k, rest, hacc, hrest⟩
  · split
    · next hcond =>
      by_cases hcomp : comp = ddot
      · rcases hcond with hne | ⟨_, hempty⟩ | ⟨hnonempty, hlast⟩
        · exact absurd hcomp hne
        · -- appending `..` to an empty stack
          refine ⟨1, [], ?_, by simp⟩
          rw [hempty, hcomp]; rfl
        · -- last element is `..`, so rest must be empty and acc all `..`
          have hr : rest = [] := by
            cases hrev : rest.reverse with
            | nil => simpa using congrArg List.reverse hrev
            | cons a t =>
              exfalso
              have hrest2 : rest = t.reverse ++ [a] := by
                have := congrArg List.reverse hrev
                simpa using this
              have hla : acc.getLast? = some a := by
                rw [hacc, hrest2, ← List.append_assoc]
                exact List.getLast?_concat _
              rw [hlast] at hla
              have ha : a = ddot := by injection hla with h2; exact h2.symm
              exact hrest (by rw [hrest2, ha]; simp)
          refine ⟨k + 1, [], ?_, by simp⟩
          rw [hacc, hr, hcomp]
          simp [List.replicate_succ']
      · refine ⟨k, rest ++ [comp], by rw [hacc, List.append_assoc], ?_⟩
        intro hmem
        rcases List.mem_append.mp hmem with h1 | h2
        · exact hrest h1
        · simp at h2; exact hcomp h2.symm
    · split
      · -- pop the last component
        cases hrev : rest.reverse with
        | nil =>
          have hr : rest = [] := by simpa using congrArg List.reverse hrev
          subst hr
          cases k with
          | zero => exact ⟨0, [], by simp [hacc], by simp⟩
          | succ n =>
            refine ⟨n, [], ?_, by simp⟩
            rw [hacc]
            simp [List.replicate_succ', List.dropLast_concat]
        | cons a t =>
          have hrest2 : rest = t.reverse ++ [a] := by
            have := congrArg List.reverse hrev
            simpa using this
          refine ⟨k, t.reverse, ?_, ?_⟩
          · rw [hacc, hrest2, ← List.append_assoc, List.dropLast_concat]
          · intro hmem
            exact hrest (by rw [hrest2]; exact List.mem_append_left _ hmem)
      · exact ⟨k, rest, hacc, hrest⟩

theorem ddotFront_foldl (abs : Bool) (comps : List (List Char)) :
    ∀ acc, DdotFront acc → DdotFront (comps.foldl (normpStep abs) acc) := by
  induction comps with
  | nil => exact fun acc h => h
  | cons c cs ih =>
    intro acc h
    exact ih _ (ddotFront_step abs acc c h)

theorem ddotFront_normcomps (p : List Char) : DdotFront (normcomps p) :=
  ddotFront_foldl (isabs p) (splitSlash p) [] ddotFront_nil

/-- A normalized component list containing `..` must start with `..`. -/
theorem normcomps_ddot_head (p : List Char) (h : ddot ∈ normcomps p) :
    ∃ t, normcomps p = ddot :: t := by
  obtain ⟨k, rest, heq, hrest⟩ := ddotFront_normcomps p
  cases k with
  | zero =>
    exfalso
    rw [heq] at h
    simp at h
    exact hrest h
  | succ n =>
    refine ⟨List.replicate n ddot ++ rest, ?_⟩
    rw [heq, List.replicate_succ, List.cons_append]

theorem isabs_normpath_of_isabs (p : List Char) (h : isabs p = true) :
    isabs (normpath p) = true := by
  have h1 : 1 ≤ initialSlashes p := by
    simp only [initialSlashes, h, if_true]
    split <;> omega
  obtain ⟨n, hn⟩ : ∃ n, initialSlashes p = n + 1 :=
    ⟨initialSlashes p - 1, by omega⟩
  unfold normpath
  rw [hn]
  simp [List.replicate_succ, isabs]

/-- C1: every download-single request whose path, after normalization,
contains an upward-escape `..` segment or is absolute is answered with
403 Forbidden by `_handle_download_file`; the handler never proceeds to
touch the filesystem for such a path. -/
theorem C1_path_escape_forbidden (fp : List Char)
    (h : ddot ∈ normcomps fp ∨ isabs (normpath fp) = true) :
    downloadFileRoute fp = .forbidden := by
  have hrej : safePathRejected fp = true := by
    unfold safePathRejected
    rcases h with hmem | habs
    · by_cases habs : isabs fp
      · rw [isabs_normpath_of_isabs fp habs, Bool.or_true]
      · obtain ⟨t, ht⟩ := normcomps_ddot_head fp hmem
        have hpre : ddot.isPrefixOf (normpath fp) = true := by
          unfold normpath initialSlashes
          rw [Bool.eq_false_iff.mpr habs]
          simp only [if_neg, List.replicate_zero, List.nil_append, ht]
          cases t with
          | nil => simp [joinSlash, ddot, List.isPrefixOf]
          | cons x xs => simp [joinSlash, ddot, List.isPrefixOf]
        rw [hpre, Bool.true_or]
    · rw [habs, Bool.or_true]
  unfold downloadFileRoute
  rw [hrej]
  rfl

/-- Witness for C1 at the spec's own example `../../etc/passwd`. -/
theorem C1_path_escape_forbidden_witness :
    (ddot ∈ normcomps ['.', '.', '/', '.', '.', '/', 'e', 't', 'c', '/',
        'p', 'a', 's', 's', 'w', 'd'] ∨
      isabs (normpath ['.', '.', '/', '.', '.', '/', 'e', 't', 'c', '/',
        'p', 'a', 's', 's', 'w', 'd']) = true) ∧
    downloadFileRoute ['.', '.', '/', '.', '.', '/', 'e', 't', 'c', '/',
        'p', 'a', 's', 's', 'w', 'd'] = .forbidden := by
  refine ⟨Or.inl (by decide), C1_path_escape_forbidden _ (Or.inl (by decide))⟩

/-! ### Range streaming (`_stream_file_range`, `_stream_large_file_range`)

File contents are `List Nat` (byte values).  `_handle_download_file`
(lines 265-269) dispatches on the file size: above 50MB it uses the
memory-mapped loop, otherwise the buffered read loop. -/

/-- `f.read(n)` with the cursor at `pos`: up to `n` bytes from `pos`. -/
def fread (file : List Nat) (pos n : Nat) : List Nat :=
  (file.drop pos).take n

/-- Chunk size chosen by `_stream_file_range` (line 276): 1MB chunks or
the whole range if smaller. -/
def bufferedChunkSize (startByte endByte : Nat) : Nat :=
  min (1024 * 1024) (endByte - startByte + 1)

/-- The write loop of `_stream_file_range` (lines 277-286), returning
the successive chunks written to the socket.  Reads
`min(chunk_size, remaining)` bytes, stops on a short (empty) read, and
shrinks `chunk_size` as `remaining` falls. -/
def streamFileChunks (file : List Nat) :
    Nat → Nat → Nat → Nat → List (List Nat)
  | 0, _, _, _ => []
  | fuel + 1, pos, remaining, chunkSize =>
    if remaining = 0 then []
    else
      let cs := min chunkSize remaining
      let chunk := fread file pos cs
      if chunk = [] then []
      else
        chunk :: streamFileChunks file fuel (pos + chunk.length)
          (remaining - chunk.length) cs

/-- Bytes written by `_stream_file_range file start end`. -/
def streamFileRange (file : List Nat) (startByte endByte : Nat) : List Nat :=
  (streamFileChunks file (endByte - startByte + 1) startByte
    (endByte - startByte + 1) (bufferedChunkSize startByte endByte)).flatten

/-- The write loop of `_stream_large_file_range` (lines 292-301),
returning the successive chunks written: 2MB slices of the mapped file;
`offset` and `remaining` move by the chunk size itself. -/
def streamLargeChunks (file : List Nat) :
    Nat → Nat → Nat → Nat → List (List Nat)
  | 0, _, _, _ => []
  | fuel + 1, offset, remaining, chunkSize =>
    if remaining = 0 then []
    else
      let cs := min chunkSize remaining
      let chunk := (file.drop offset).take cs
      chunk :: streamLargeChunks file fuel (offset + cs) (remaining - cs) cs

/-- Bytes written by `_stream_large_file_range file start end`. -/
def streamLargeFileRange (file : List Nat) (startByte endByte : Nat) :
    List Nat :=
  (streamLargeChunks file (endByte - startByte + 1) startByte
    (endByte - startByte + 1) (2 * 1024 * 1024)).flatten

/-- The 50MB dispatch threshold of `_handle_download_file` (line 266). -/
def mmapThreshold : Nat := 50 * 1024 * 1024

/-- `file_size > 50 * 1024 * 1024` (line 266). -/
def usesMmapPath (fileSize : Nat) : Bool := decide (fileSize > mmapThreshold)

/-- Body bytes served for an honored range `[startByte, endByte]` by
`_handle_download_file` (lines 265-269). -/
def serveRangeBytes (file : List Nat) (startByte endByte : Nat) : List Nat :=
  if usesMmapPath file.length then streamLargeFileRange file startByte endByte
  else streamFileRange file startByte endByte

theorem streamFileChunks_join (file : List Nat) :
    ∀ fuel pos remaining chunkSize, 1 ≤ chunkSize → remaining ≤ fuel →
      (streamFileChunks file fuel pos remaining chunkSize).flatten =
        (file.drop pos).take remaining := by
  intro fuel
  induction fuel with
  | zero =>
    intro pos remaining cs _ hrem
    have : remaining = 0 := Nat.le_zero.mp hrem
    simp [streamFileChunks, this]
  | succ n ih =>
    intro pos remaining cs hcs hrem
    by_cases h0 : remaining = 0
    · simp [streamFileChunks, h0]
    · have hcs' : 1 ≤ min cs remaining := by
        have : 1 ≤ remaining := Nat.one_le_iff_ne_zero.mpr h0
        exact le_min hcs this
      by_cases hchunk : fread file pos (min cs remaining) = []
      · -- short read: the file is exhausted at `pos`
        have hdrop : file.drop pos = [] := by
          by_contra hne
          obtain ⟨a, t, ht⟩ := List.exists_cons_of_ne_nil hne
          unfold fread at hchunk
          rw [ht] at hchunk
          obtain ⟨m, hm⟩ : ∃ m, min cs remaining = m + 1 :=
            ⟨min cs remaining - 1, by omega⟩
          rw [hm] at hchunk
          simp [List.take_succ_cons] at hchunk
        simp [streamFileChunks, h0, hchunk, hdrop]
      · rw [streamFileChunks]
        simp only [if_neg h0, if_neg hchunk, List.flatten_cons]
        set d := file.drop pos with hd
        set cs' := min cs remaining with hcs'def
        have hlen : (fread file pos cs').length = min cs' d.length := by
          simp [fread, ← hd]
        have hlenpos : 1 ≤ (fread file pos cs').length :=
          List.length_pos.mpr hchunk
        rw [ih (pos + (fread file pos cs').length)
            (remaining - (fread file pos cs').length) cs' hcs' (by omega)]
        rw [← List.drop_drop]
        rcases Nat.lt_or_ge d.length cs' with hlt | hge
        · -- the read returned the whole rest of the file
          have hchunkall : fread file pos cs' = d := by
            simp [fread, ← hd]
            omega
          rw [hchunkall]
          have : d.drop d.length = [] := by simp
          rw [this]
          simp only [List.take_nil, List.append_nil]
          have : d.length ≤ remaining := by
            have : cs' ≤ remaining := min_le_right _ _
            omega
          exact (List.take_of_length_le this).symm
        · -- a full `cs'`-byte read
          have hlencs : (fread file pos cs').length = cs' := by
            rw [hlen]; omega
          have hsplit : remaining = cs' + (remaining - cs') := by
            have : cs' ≤ remaining := min_le_right _ _
            omega
          rw [hlencs]
          conv_rhs => rw [hsplit]
          rw [List.take_add]
          simp [fread, ← hd]

theorem streamLargeChunks_join (file : List Nat) :
    ∀ fuel offset remaining chunkSize, 1 ≤ chunkSize → remaining ≤ fuel →
      (streamLargeChunks file fuel offset remaining chunkSize).flatten =
        (file.drop offset).take remaining := by
  intro fuel
  induction fuel with
  | zero =>
    intro off remaining cs _ hrem
    have : remaining = 0 := Nat.le_zero.mp hrem
    simp [streamLargeChunks, this]
  | succ n ih =>
    intro off remaining cs hcs hrem
    by_cases h0 : remaining = 0
    · simp [streamLargeChunks, h0]
    · rw [streamLargeChunks]
      simp only [if_neg h0, List.flatten_cons]
      set cs' := min cs remaining with hcs'def
      have hcs1 : 1 ≤ cs' := by
        have : 1 ≤ remaining := Nat.one_le_iff_ne_zero.mpr h0
        exact le_min hcs this
      rw [ih (off + cs') (remaining - cs') cs' hcs1 (by omega)]
      rw [← List.drop_drop]
      have hsplit : remaining = cs' + (remaining - cs') := by
        have : cs' ≤ remaining := min_le_right _ _
        omega
      conv_rhs => rw [hsplit]
      rw [List.take_add]

/-- Both streaming loops produce exactly the requested byte slice. -/
theorem serveRangeBytes_eq_slice (file : List Nat) (s e : Nat)
    (hse : s ≤ e) :
    serveRangeBytes file s e = (file.drop s).take (e - s + 1) := by
  unfold serveRangeBytes streamLargeFileRange streamFileRange
  split
  · exact streamLargeChunks_join file (e - s + 1) s (e - s + 1)
      (2 * 1024 * 1024) (by norm_num) (le_refl _)
  · exact streamFileChunks_join file (e - s + 1) s (e - s + 1)
      (bufferedChunkSize s e) (by unfold bufferedChunkSize; omega) (le_refl _)

/-- C2: for a file of size `S` and any split point `0 < K < S`, the
full-range response is byte-identical to the file, the concatenation of
the ranges `[0, K-1]` and `[K, S-1]` is too, and every honored range
`[s, e]` with `s ≤ e < S` yields exactly bytes `s..e` in order. -/
theorem C2_range_roundtrip (file : List Nat) (K : Nat)
    (hK0 : 0 < K) (hKS : K < file.length) :
    serveRangeBytes file 0 (file.length - 1) = file ∧
    serveRangeBytes file 0 (K - 1) ++
      serveRangeBytes file K (file.length - 1) = file ∧
    ∀ s e, s ≤ e → e < file.length →
      serveRangeBytes file s e = (file.drop s).take (e - s + 1) := by
  have hlen : 1 ≤ file.length := by omega
  refine ⟨?_, ?_, fun s e hse _ => serveRangeBytes_eq_slice file s e hse⟩
  · rw [serveRangeBytes_eq_slice file 0 (file.length - 1) (by omega)]
    simp only [List.drop_zero]
    have : file.length - 1 - 0 + 1 = file.length := by omega
    rw [this]
    exact List.take_of_length_le (le_refl _)
  · rw [serveRangeBytes_eq_slice file 0 (K - 1) (by omega),
      serveRangeBytes_eq_slice file K (file.length - 1) (by omega)]
    simp only [List.drop_zero]
    have h1 : K - 1 - 0 + 1 = K := by omega
    have h2 : file.length - 1 - K + 1 = file.length - K := by omega
    rw [h1, h2]
    have : (file.drop K).take (file.length - K) = file.drop K := by
      apply List.take_of_length_le
      simp
    rw [this]
    exact List.take_append_drop K file

/-- Witness for C2 on the file `[10, 20, 30]` split at `K = 1`. -/
theorem C2_range_roundtrip_witness :
    (0 < 1 ∧ 1 < ([10, 20, 30] : List Nat).length) ∧
    (serveRangeBytes [10, 20, 30] 0 (([10, 20, 30] : List Nat).length - 1) =
        [10, 20, 30] ∧
      serveRangeBytes [10, 20, 30] 0 (1 - 1) ++
        serveRangeBytes [10, 20, 30] 1 (([10, 20, 30] : List Nat).length - 1) =
        [10, 20, 30] ∧
      ∀ s e, s ≤ e → e < ([10, 20, 30] : List Nat).length →
        serveRangeBytes [10, 20, 30] s e =
          (([10, 20, 30] : List Nat).drop s).take (e - s + 1)) :=
  ⟨⟨by decide, by decide⟩, C2_range_roundtrip [10, 20, 30] 1 (by decide) (by decide)⟩

/-! ### Chunk sizes (claim C9)

`_stream_file_range` reads `min(1024 * 1024, end - start + 1)`-byte
chunks; the 64KB/1MB/4MB size tier lives in the client
(`_calculate_optimal_chunk_size`), not in the server's streamer. -/

theorem streamFileChunks_length_le (file : List Nat) :
    ∀ fuel pos remaining chunkSize c,
      c ∈ streamFileChunks file fuel pos remaining chunkSize →
      c.length ≤ chunkSize := by
  intro fuel
  induction fuel with
  | zero => intro pos rem cs c h; simp [streamFileChunks] at h
  | succ n ih =>
    intro pos rem cs c h
    rw [streamFileChunks] at h
    by_cases h0 : rem = 0
    · simp [h0] at h
    · simp only [if_neg h0] at h
      by_cases hchunk : fread file pos (min cs rem) = []
      · simp [hchunk] at h
      · simp only [if_neg hchunk, List.mem_cons] at h
        rcases h with h | h
        · subst h
          simp only [fread, List.length_take]
          exact le_trans (min_le_left _ _) (min_le_left _ _)
        · exact le_trans (ih _ _ _ _ h) (min_le_left _ _)

theorem streamLargeChunks_length_le (file : List Nat) :
    ∀ fuel offset remaining chunkSize c,
      c ∈ streamLargeChunks file fuel offset remaining chunkSize →
      c.length ≤ chunkSize := by
  intro fuel
  induction fuel with
  | zero => intro off rem cs c h; simp [streamLargeChunks] at h
  | succ n ih =>
    intro off rem cs c h
    rw [streamLargeChunks] at h
    by_cases h0 : rem = 0
    · simp [h0] at h
    · simp only [if_neg h0, List.mem_cons] at h
      rcases h with h | h
      · subst h
        simp only [List.length_take]
        exact le_trans (min_le_left _ _) (min_le_left _ _)
      · exact le_trans (ih _ _ _ _ h) (min_le_left _ _)

/-- C9 counterexample: a 512KB file is at or below the 50MB threshold,
so the buffered path is taken, and its full-range chunk size is
`min(1MB, 524288) = 524288` bytes, which is none of the claimed
64KB/1MB/4MB tiers. -/
theorem C9_counterexample :
    usesMmapPath 524288 = false ∧
    bufferedChunkSize 0 524287 = 524288 ∧
    bufferedChunkSize 0 524287 ≠ 64 * 1024 ∧
    bufferedChunkSize 0 524287 ≠ 1024 * 1024 ∧
    bufferedChunkSize 0 524287 ≠ 4 * 1024 * 1024 := by
  refine ⟨?_, ?_, ?_, ?_, ?_⟩ <;>
    simp [usesMmapPath, mmapThreshold, bufferedChunkSize]

/-- C9 amended: requests for files at or below 50MB take the sequential
buffered path, whose read chunk size is `min(1MB, range length)` — every
chunk written is at most 1MB — while files above 50MB take the
memory-mapped path with 2MB-capped chunks. -/
theorem C9_amended_dispatch_and_chunks (file : List Nat) (s e : Nat) :
    serveRangeBytes file s e =
      (if file.length > mmapThreshold then streamLargeFileRange file s e
        else streamFileRange file s e) ∧
    bufferedChunkSize s e = min (1024 * 1024) (e - s + 1) ∧
    (∀ c ∈ streamFileChunks file (e - s + 1) s (e - s + 1)
        (bufferedChunkSize s e), c.length ≤ 1024 * 1024) ∧
    (∀ c ∈ streamLargeChunks file (e - s + 1) s (e - s + 1)
        (2 * 1024 * 1024), c.length ≤ 2 * 1024 * 1024) := by
  refine ⟨?_, rfl, ?_, ?_⟩
  · unfold serveRangeBytes usesMmapPath
    split
    · next h => rw [if_pos (by simpa using h)]
    · next h => rw [if_neg (by simpa using h)]
  · intro c hc
    exact le_trans (streamFileChunks_length_le file _ _ _ _ c hc)
      (min_le_left _ _)
  · intro c hc
    exact streamLargeChunks_length_le file _ _ _ _ c hc

/-! ### Range header parsing and the download-single response (C10)

`_handle_download_file` lines 237-263: `re.match(r'bytes=(\d+)-(\d*)',
range_header)` is anchored at the start of the header but not at its
end; a non-matching header falls through to a plain 200 full response. -/

/-- Greedily take leading ASCII digits (the regex pieces `\d+`, `\d*`). -/
def takeDigits : List Char → List Char × List Char
  | [] => ([], [])
  | c :: rest =>
    if c.isDigit then
      let (d, r) := takeDigits rest
      (c :: d, r)
    else ([], c :: rest)

/-- `int()` on a digit string. -/
def digitsToNat (d : List Char) : Nat :=
  d.foldl (fun n c => 10 * n + (c.toNat - '0'.toNat)) 0

/-- `re.match(r'bytes=(\d+)-(\d*)', header)`: the literal `bytes=`, one
or more digits, `-`, zero or more digits, anchored at the start only —
trailing garbage is ignored.  Returns `(start, optional end)`. -/
def rangeMatch (s : List Char) : Option (Nat × Option Nat) :=
  if ['b', 'y', 't', 'e', 's', '='].isPrefixOf s then
    let rest := s.drop 6
    let (d1, r1) := takeDigits rest
    if d1 = [] then none
    else
      match r1 with
      | '-' :: r2 =>
        let (d2, _) := takeDigits r2
        some (digitsToNat d1, if d2 = [] then none else some (digitsToNat d2))
      | _ => none
  else none

/-- The response assembled by `_handle_download_file` for an existing
in-root file (lines 218-269): status, `Content-Range` when a range was
honored, `Content-Length`, and the body bytes written. -/
structure DownloadResponse where
  status : Nat
  contentRange : Option (Int × Int × Nat)
  contentLength : Option Int
  body : List Nat
  deriving DecidableEq, Repr

/-- Body bytes written by the streaming loops for (possibly
degenerate) bounds: with `end - start + 1 <= 0` neither loop runs.
`startByte` is never negative in the handler (0 or parsed digits). -/
def serveBody (file : List Nat) (startByte endByte : Int) : List Nat :=
  if endByte - startByte + 1 ≤ 0 then []
  else serveRangeBytes file startByte.toNat endByte.toNat

/-- `_handle_download_file` on an existing in-root file: the ETag
short-circuit (lines 229-234), then Range handling (lines 237-263) and
streaming.  `etagMatches` is whether the client's `If-None-Match` equals
the file's current ETag. -/
def handleDownloadFile (file : List Nat) (etagMatches : Bool)
    (rangeHeader : Option (List Char)) : DownloadResponse :=
  if etagMatches then
    { status := 304, contentRange := none, contentLength := none, body := [] }
  else
    let fileSize := file.length
    match rangeHeader with
    | none =>
      { status := 200, contentRange := none,
        contentLength := some ((fileSize : Int) - 1 - 0 + 1),
        body := serveBody file 0 ((fileSize : Int) - 1) }
    | some h =>
      match rangeMatch h with
      | some (s1, oe) =>
        let startByte : Int := s1
        let endByte : Int := match oe with
          | some e1 => e1
          | none => (fileSize : Int) - 1
        { status := 206,
          contentRange := some (startByte, endByte, fileSize),
          contentLength := some (endByte - startByte + 1),
          body := serveBody file startByte endByte }
      | none =>
        { status := 200, contentRange := none,
          contentLength := some ((fileSize : Int) - 1 - 0 + 1),
          body := serveBody file 0 ((fileSize : Int) - 1) }

/-- C10 counterexample: the header `bytes=3-5x` does not have the form
`bytes=<start>-[<end>]`, yet on a 10-byte file the server answers 206
with `Content-Length: 3` and bytes 3..5 — not a 200 with the whole
file. -/
theorem C10_counterexample :
    (handleDownloadFile [0, 1, 2, 3, 4, 5, 6, 7, 8, 9] false
        (some ['b', 'y', 't', 'e', 's', '=', '3', '-', '5', 'x'])).status =
      206 ∧
    (handleDownloadFile [0, 1, 2, 3, 4, 5, 6, 7, 8, 9] false
        (some ['b', 'y', 't', 'e', 's', '=', '3', '-', '5', 'x'])).contentLength =
      some 3 ∧
    (handleDownloadFile [0, 1, 2, 3, 4, 5, 6, 7, 8, 9] false
        (some ['b', 'y', 't', 'e', 's', '=', '3', '-', '5', 'x'])).body =
      [3, 4, 5] := by
  refine ⟨rfl, by decide, by decide⟩

/-- C10 amended: a Range header with no leading `bytes=<digits>-`
portion (the anchored regex fails) is silently ignored: the response is
a 200 carrying the whole file, with `Content-Length` equal to the file
size; but a header whose front parses as a range is honored as one,
whatever trails it. -/
theorem C10_amended (file : List Nat) (h : List Char)
    (hm : rangeMatch h = none) :
    (handleDownloadFile file false (some h)).status = 200 ∧
    (handleDownloadFile file false (some h)).contentLength =
      some (file.length : Int) ∧
    (handleDownloadFile file false (some h)).body = file := by
  unfold handleDownloadFile
  simp only [Bool.false_eq_true, if_false, hm]
  refine ⟨by trivial, by simp, ?_⟩
  simp only [serveBody]
  by_cases hlen : file.length = 0
  · rw [if_pos (by omega)]
    exact (List.eq_nil_of_length_eq_zero hlen).symm
  · rw [if_neg (by omega)]
    have h0 : (0 : Int).toNat = 0 := rfl
    have h1 : ((file.length : Int) - 1).toNat = file.length - 1 := by omega
    rw [h0, h1, serveRangeBytes_eq_slice file 0 (file.length - 1) (by omega)]
    simp only [List.drop_zero]
    have : file.length - 1 - 0 + 1 = file.length := by omega
    rw [this]
    exact List.take_of_length_le (le_refl _)

/-- Witness for the amended C10 at the malformed header `bytes=abc`. -/
theorem C10_amended_witness :
    rangeMatch ['b', 'y', 't', 'e', 's', '=', 'a', 'b', 'c'] = none ∧
    (handleDownloadFile [7, 8] false
        (some ['b', 'y', 't', 'e', 's', '=', 'a', 'b', 'c'])).status = 200 ∧
    (handleDownloadFile [7, 8] false
        (some ['b', 'y', 't', 'e', 's', '=', 'a', 'b', 'c'])).contentLength =
      some (([7, 8] : List Nat).length : Int) ∧
    (handleDownloadFile [7, 8] false
        (some ['b', 'y', 't', 'e', 's', '=', 'a', 'b', 'c'])).body = [7, 8] :=
  ⟨by decide, C10_amended [7, 8] ['b', 'y', 't', 'e', 's', '=', 'a', 'b', 'c']
    (by decide)⟩

/-! ### Client single-file download engine (`HTTPClient.download_file`,
client.py lines 87-192)

The HTTP environment is a script `Nat → Attempt` giving the outcome of
each attempt of the retry loop: a connection/timeout exception, some
other exception, or a response.  A connection failure is modelled as
raised before any local byte is written. -/

/-- Local state of the destination path. -/
structure LocalFile where
  present : Bool
  size : Nat
  deriving DecidableEq, Repr

/-- A server response: status, declared `Content-Length`, and the number
of body bytes actually streamed. -/
structure HTTPResponse where
  status : Nat
  contentLength : Nat
  bodyLen : Nat
  deriving DecidableEq, Repr

/-- Outcome of one attempt of the retry loop. -/
inductive Attempt where
  | connFail (err : String)
  | otherFail (err : String)
  | resp (r : HTTPResponse)
  deriving Repr

/-- Result of a `download_file` run: outcome flag and message (the
returned pair), local file state, whether the partial output was
removed, the backoff waits slept, attempts consumed, and the last
`(downloaded, total)` progress pair reported. -/
structure RunResult where
  ok : Bool
  message : String
  file : LocalFile
  deleted : Bool
  waits : List Nat
  attemptsUsed : Nat
  finalProgress : Option (Nat × Nat)
  deriving DecidableEq, Repr

/-- `resume_pos` (lines 100-105): the existing size when resuming. -/
def resumePos (resume : Bool) (lf : LocalFile) : Nat :=
  if resume && lf.present then lf.size else 0

/-- The `Range` request header (lines 101-105): `bytes=<size>-` exactly
when resume is enabled and a partial file exists. -/
def rangeRequestHeader (resume : Bool) (lf : LocalFile) : Option String :=
  if resume && lf.present then some ("bytes=" ++ toString lf.size ++ "-")
  else none

/-- Handling of a received response (lines 117-172): 304 short-circuits
as already complete, 206 appends from the resume offset, 200 rewrites
from scratch, and anything else raises and is caught by the generic
handler (delete the partial only when not resuming). -/
def processAttemptResp (resume : Bool) (lf : LocalFile) (r : HTTPResponse)
    (retryCount : Nat) (waits : List Nat) : RunResult :=
  let rp := resumePos resume lf
  if r.status = 304 then
    let fs := if lf.present then lf.size else 0
    { ok := true, message := "File already up to date!", file := lf,
      deleted := false, waits := waits, attemptsUsed := retryCount + 1,
      finalProgress := some (fs, fs) }
  else if r.status = 206 ∨ r.status = 200 then
    let rp' := if r.status = 206 then rp else 0
    let base := if r.status = 206 then (if lf.present then lf.size else 0)
      else 0
    let total := r.contentLength + rp'
    { ok := true, message := "Download complete!",
      file := { present := true, size := base + r.bodyLen },
      deleted := false, waits := waits, attemptsUsed := retryCount + 1,
      finalProgress := some (rp' + r.bodyLen, total) }
  else
    let del := !resume && lf.present
    { ok := false, message := "Download failed: " ++ toString r.status,
      file := if del then { present := false, size := 0 } else lf,
      deleted := del, waits := waits, attemptsUsed := retryCount + 1,
      finalProgress := none }

/-- The retry loop of `download_file` (lines 92-192).  `fuel` counts the
iterations still allowed; the loop is entered with `maxRetries + 1`,
which is exactly the number of iterations `retry_count <= max_retries`
admits, so fuel 0 corresponds to the fall-through return of line 192. -/
def downloadFileLoop (resume : Bool) (maxRetries : Nat)
    (script : Nat → Attempt) :
    Nat → LocalFile → Nat → List Nat → RunResult
  | 0, lf, retryCount, waits =>
    { ok := false,
      message := "Download failed after " ++ toString maxRetries ++
        " retries",
      file := lf, deleted := false, waits := waits,
      attemptsUsed := retryCount, finalProgress := none }
  | fuel + 1, lf, retryCount, waits =>
    match script retryCount with
    | .connFail err =>
      let rc := retryCount + 1
      if rc ≤ maxRetries then
        downloadFileLoop resume maxRetries script fuel lf rc
          (waits ++ [min (2 ^ rc) 10])
      else
        { ok := false,
          message := "Download failed after " ++ toString maxRetries ++
            " retries: " ++ err,
          file := lf, deleted := false, waits := waits,
          attemptsUsed := rc, finalProgress := none }
    | .otherFail err =>
      let del := !resume && lf.present
      { ok := false, message := "Download failed: " ++ err,
        file := if del then { present := false, size := 0 } else lf,
        deleted := del, waits := waits, attemptsUsed := retryCount + 1,
        finalProgress := none }
    | .resp r => processAttemptResp resume lf r retryCount waits

/-- `download_file`'s `max_retries=3` default (line 88). -/
def defaultMaxRetries : Nat := 3

/-- `HTTPClient.download_file` with explicit environment script. -/
def download_file (resume : Bool) (maxRetries : Nat)
    (script : Nat → Attempt) (lf : LocalFile) : RunResult :=
  downloadFileLoop resume maxRetries script (maxRetries + 1) lf 0 []

/-- C3: with a partial file of size `K` and resume enabled, the request
carries `Range: bytes=K-`; a 206 answer whose body delivers the declared
remaining length leaves a file of exactly the reported total
`K + Content-Length`; a 304 answer is treated as already complete,
reporting progress against the existing local size `K`. -/
theorem C3_resume_correctness (K maxRetries : Nat) (lf : LocalFile)
    (hp : lf.present = true) (hs : lf.size = K) :
    rangeRequestHeader true lf = some ("bytes=" ++ toString K ++ "-") ∧
    (∀ script r, script 0 = Attempt.resp r → r.status = 206 →
      r.bodyLen = r.contentLength →
      (download_file true maxRetries script lf).ok = true ∧
      (download_file true maxRetries script lf).file.size =
        K + r.contentLength) ∧
    (∀ script r, script 0 = Attempt.resp r → r.status = 304 →
      (download_file true maxRetries script lf).ok = true ∧
      (download_file true maxRetries script lf).message =
        "File already up to date!" ∧
      (download_file true maxRetries script lf).file = lf ∧
      (download_file true maxRetries script lf).finalProgress =
        some (K, K)) := by
  refine ⟨?_, ?_, ?_⟩
  · simp [rangeRequestHeader, hp, hs]
  · intro script r hscript h206 hbody
    unfold download_file downloadFileLoop
    rw [hscript]
    simp only [processAttemptResp, h206]
    norm_num
    simp [resumePos, hp, hs, hbody, Nat.add_comm]
  · intro script r hscript h304
    unfold download_file downloadFileLoop
    rw [hscript]
    simp [processAttemptResp, h304, hp, hs]

/-- Witness for C3: a 5-byte partial file, a 206 delivering 7 more
bytes, and a separate 304 run. -/
theorem C3_resume_correctness_witness :
    ({ present := true, size := 5 : LocalFile }).present = true ∧
    ({ present := true, size := 5 : LocalFile }).size = 5 ∧
    (rangeRequestHeader true { present := true, size := 5 } =
      some ("bytes=" ++ toString 5 ++ "-") ∧
    (∀ script r, script 0 = Attempt.resp r → r.status = 206 →
      r.bodyLen = r.contentLength →
      (download_file true 3 script { present := true, size := 5 }).ok =
        true ∧
      (download_file true 3 script { present := true, size := 5 }).file.size =
        5 + r.contentLength) ∧
    (∀ script r, script 0 = Attempt.resp r → r.status = 304 →
      (download_file true 3 script { present := true, size := 5 }).ok =
        true ∧
      (download_file true 3 script { present := true, size := 5 }).message =
        "File already up to date!" ∧
      (download_file true 3 script { present := true, size := 5 }).file =
        { present := true, size := 5 } ∧
      (download_file true 3 script { present := true, size := 5 }).finalProgress =
        some (5, 5))) :=
  ⟨rfl, rfl, C3_resume_correctness 5 3 { present := true, size := 5 } rfl rfl⟩

theorem processAttemptResp_shape (resume : Bool) (lf : LocalFile)
    (r : HTTPResponse) (rc : Nat) (waits : List Nat) :
    (processAttemptResp resume lf r rc waits).waits = waits ∧
    (processAttemptResp resume lf r rc waits).attemptsUsed = rc + 1 ∧
    ((processAttemptResp resume lf r rc waits).deleted = true →
      resume = false) := by
  unfold processAttemptResp
  split
  · exact ⟨rfl, rfl, by simp⟩
  · split
    · exact ⟨rfl, rfl, by simp⟩
    · refine ⟨rfl, rfl, ?_⟩
      intro h
      simp only at h
      cases resume with
      | false => rfl
      | true => simp at h

/-- Backoff wait for the `i`-th retry (0-based): `min(2 ** (i+1), 10)`
(line 178). -/
def backoffWait (i : Nat) : Nat := min (2 ^ (i + 1)) 10

theorem downloadFileLoop_inv (resume : Bool) (maxRetries : Nat)
    (script : Nat → Attempt) :
    ∀ fuel lf retryCount waits,
      retryCount ≤ maxRetries →
      waits = (List.range retryCount).map backoffWait →
      (downloadFileLoop resume maxRetries script fuel lf retryCount
          waits).attemptsUsed ≤ maxRetries + 1 ∧
      (downloadFileLoop resume maxRetries script fuel lf retryCount
          waits).waits =
        (List.range (downloadFileLoop resume maxRetries script fuel lf
          retryCount waits).waits.length).map backoffWait ∧
      (downloadFileLoop resume maxRetries script fuel lf retryCount
          waits).waits.length ≤ maxRetries ∧
      ((downloadFileLoop resume maxRetries script fuel lf retryCount
          waits).deleted = true → resume = false) := by
  intro fuel
  induction fuel with
  | zero =>
    intro lf rc waits hrc hw
    refine ⟨by simp [downloadFileLoop]; omega, ?_, ?_, ?_⟩
    · simp only [downloadFileLoop]
      rw [hw]
      simp
    · simp only [downloadFileLoop]
      rw [hw]
      simp
      omega
    · simp [downloadFileLoop]
  | succ n ih =>
    intro lf rc waits hrc hw
    cases hs : script rc with
    | connFail err =>
      simp only [downloadFileLoop, hs]
      by_cases hle : rc + 1 ≤ maxRetries
      · rw [if_pos hle]
        apply ih lf (rc + 1) _ hle
        rw [hw, List.range_succ, List.map_append]
        rfl
      · rw [if_neg hle]
        refine ⟨by simp; omega, by simp [hw], by simp [hw]; omega, by simp⟩
    | otherFail err =>
      simp only [downloadFileLoop, hs]
      refine ⟨by simp; omega, by simp [hw], by simp [hw]; omega, ?_⟩
      intro h
      cases resume with
      | false => rfl
      | true => simp at h
    | resp r =>
      simp only [downloadFileLoop, hs]
      obtain ⟨hwset, hatt, hdel⟩ :=
        processAttemptResp_shape resume lf r rc waits
      refine ⟨by rw [hatt]; omega, ?_, ?_, hdel⟩
      · rw [hwset, hw]
        simp
      · rw [hwset, hw]
        simp
        omega

theorem downloadFileLoop_exhaust (resume : Bool) (maxRetries : Nat)
    (script : Nat → Attempt) :
    ∀ fuel lf retryCount waits,
      retryCount ≤ maxRetries →
      maxRetries + 1 - retryCount ≤ fuel →
      (∀ j, retryCount ≤ j → j ≤ maxRetries →
        ∃ e, script j = .connFail e) →
      (downloadFileLoop resume maxRetries script fuel lf retryCount
          waits).ok = false ∧
      ∀ e, script maxRetries = .connFail e →
        (downloadFileLoop resume maxRetries script fuel lf retryCount
            waits).message =
          "Download failed after " ++ toString maxRetries ++
            " retries: " ++ e := by
  intro fuel
  induction fuel with
  | zero =>
    intro lf rc waits hrc hfuel hall
    omega
  | succ n ih =>
    intro lf rc waits hrc hfuel hall
    obtain ⟨e, he⟩ := hall rc (le_refl rc) hrc
    simp only [downloadFileLoop, he]
    by_cases hle : rc + 1 ≤ maxRetries
    · rw [if_pos hle]
      exact ih lf (rc + 1) _ hle (by omega)
        (fun j h1 h2 => hall j (by omega) h2)
    · rw [if_neg hle]
      have hrcm : rc = maxRetries := by omega
      refine ⟨rfl, ?_⟩
      intro e2 he2
      have : Attempt.connFail e = Attempt.connFail e2 := by
        rw [← he, hrcm, he2]
      injection this with h3
      simp only [h3]

/-- C4: connection/timeout failures are retried with waits
`min(2 ** k, 10)` for the `k`-th retry (exponential backoff capped at
10s) at most `maxRetries` times (default 3, so at most 4 attempts); any
other failure deletes the partial output exactly when resume was not
requested and the file existed — never when resume was requested; all
retries exhausted gives a failure outcome carrying the last error. -/
theorem C4_retry_policy (resume : Bool) (maxRetries : Nat)
    (script : Nat → Attempt) (lf : LocalFile) :
    defaultMaxRetries = 3 ∧
    (download_file resume maxRetries script lf).attemptsUsed ≤
      maxRetries + 1 ∧
    (download_file resume maxRetries script lf).waits =
      (List.range
        (download_file resume maxRetries script lf).waits.length).map
        backoffWait ∧
    (download_file resume maxRetries script lf).waits.length ≤
      maxRetries ∧
    (∀ w ∈ (download_file resume maxRetries script lf).waits, w ≤ 10) ∧
    (resume = true →
      (download_file resume maxRetries script lf).deleted = false) ∧
    ((download_file resume maxRetries script lf).deleted = true →
      resume = false) ∧
    (∀ e, script 0 = .otherFail e →
      (download_file resume maxRetries script lf).ok = false ∧
      (download_file resume maxRetries script lf).deleted =
        (!resume && lf.present) ∧
      (download_file resume maxRetries script lf).message =
        "Download failed: " ++ e) ∧
    ((∀ j, j ≤ maxRetries → ∃ e, script j = .connFail e) →
      (download_file resume maxRetries script lf).ok = false ∧
      ∀ e, script maxRetries = .connFail e →
        (download_file resume maxRetries script lf).message =
          "Download failed after " ++ toString maxRetries ++
            " retries: " ++ e) := by
  unfold download_file
  obtain ⟨hatt, hwform, hwlen, hdel⟩ :=
    downloadFileLoop_inv resume maxRetries script (maxRetries + 1) lf 0 []
      (Nat.zero_le _) (by simp)
  refine ⟨rfl, hatt, hwform, hwlen, ?_, ?_, hdel, ?_, ?_⟩
  · intro w hw
    rw [hwform] at hw
    obtain ⟨i, _, hi⟩ := List.mem_map.mp hw
    rw [← hi]
    exact min_le_right _ _
  · intro hres
    cases hdf : (downloadFileLoop resume maxRetries script (maxRetries + 1)
        lf 0 []).deleted with
    | false => rfl
    | true => rw [hdel hdf] at hres; exact absurd hres (by simp)
  · intro e he
    unfold downloadFileLoop
    rw [he]
    exact ⟨rfl, rfl, rfl⟩
  · intro hall
    exact downloadFileLoop_exhaust resume maxRetries script
      (maxRetries + 1) lf 0 [] (Nat.zero_le _) (by omega)
      (fun j _ h2 => hall j h2)

/-- Witness for C4: a run whose every attempt raises a connection
failure exhausts its 3 retries and reports the last error. -/
theorem C4_retry_policy_witness :
    (download_file false 3 (fun _ => Attempt.connFail "boom")
        { present := false, size := 0 }).ok = false ∧
    (download_file false 3 (fun _ => Attempt.connFail "boom")
        { present := false, size := 0 }).message =
      "Download failed after " ++ toString 3 ++ " retries: " ++ "boom" := by
  have h := C4_retry_policy false 3 (fun _ => Attempt.connFail "boom")
    { present := false, size := 0 }
  obtain ⟨-, -, -, -, -, -, -, -, hex⟩ := h
  have h2 := hex (fun j _ => ⟨"boom", rfl⟩)
  exact ⟨h2.1, h2.2 "boom" rfl⟩

/-! ### Directory listing (`_build_file_list`,
`_build_file_list_fallback`, server.py lines 75-145)

A directory tree is an `FSNode`; names and paths are `List Char`.  The
primary builder walks with `Path.rglob`, records full metadata and ends
with `list.sort(key=lambda x: (x['type'] == 'file', x['path'].lower()))`.
The fallback builder walks with `os.walk`, records fewer fields and
does not sort. -/

/-- A filesystem subtree: a file with size and mtime, or a directory
with mtime and children (in directory-scan order). -/
inductive FSNode where
  | file (name : List Char) (size : Nat) (mtime : Nat)
  | dir (name : List Char) (mtime : Nat) (children : List FSNode)

/-- The string `"file"`. -/
def tFile : List Char := ['f', 'i', 'l', 'e']

/-- The string `"folder"`. -/
def tFolder : List Char := ['f', 'o', 'l', 'd', 'e', 'r']

/-- One listing entry (the JSON dict); `modified` and `extension` are
`none` for the keys a builder does not emit. -/
structure DirEntry where
  name : List Char
  path : List Char
  type : List Char
  size : Nat
  modified : Option Nat
  extension : Option (List Char)
  deriving DecidableEq, Repr

/-- Join a relative directory path and a child name with `/`. -/
def pathJoin (pre name : List Char) : List Char :=
  if pre = [] then name else pre ++ '/' :: name

/-- `name.rfind('.')`. -/
def rfindDot : List Char → Option Nat
  | [] => none
  | c :: rest =>
    match rfindDot rest with
    | some i => some (i + 1)
    | none => if c = '.' then some 0 else none

/-- `Path.suffix`: the final dot-suffix, empty when the dot is first or
last. -/
def pathSuffix (name : List Char) : List Char :=
  match rfindDot name with
  | some i => if 0 < i ∧ i < name.length - 1 then name.drop i else []
  | none => []

mutual

/-- Entries contributed by one node during the `rglob` walk of
`_build_file_list` (lines 82-103): files carry size, mtime and a
lowercased extension; directories carry mtime and size 0, and are
visited before their contents. -/
def rglobNode (pre : List Char) : FSNode → List DirEntry
  | .file n sz mt =>
    [{ name := n, path := pathJoin pre n, type := tFile, size := sz,
        modified := some mt,
        extension := some ((pathSuffix n).map Char.toLower) }]
  | .dir n mt cs =>
    { name := n, path := pathJoin pre n, type := tFolder, size := 0,
        modified := some mt, extension := none } ::
      rglobNodes (pathJoin pre n) cs

/-- `rglobNode` over a child list, in order. -/
def rglobNodes (pre : List Char) : List FSNode → List DirEntry
  | [] => []
  | c :: cs => rglobNode pre c ++ rglobNodes pre cs

end

/-- `x['type'] == 'file'` — the first component of the sort key. -/
def isFileKey (a : DirEntry) : Bool := decide (a.type = tFile)

/-- `x['path'].lower()` — the second component of the sort key. -/
def lowerPath (a : DirEntry) : List Char := a.path.map Char.toLower

/-- Strict comparison of the Python sort keys
`(x['type'] == 'file', x['path'].lower())` (tuple `<`). -/
def entryKeyLt (a b : DirEntry) : Bool :=
  if isFileKey a = isFileKey b then decide (lowerPath a < lowerPath b)
  else decide (isFileKey a < isFileKey b)

/-- Stable insertion of one element into a sorted prefix (model of the
stable `list.sort`). -/
def insertSorted (x : DirEntry) : List DirEntry → List DirEntry
  | [] => [x]
  | y :: ys => if entryKeyLt x y then x :: y :: ys else y :: insertSorted x ys

/-- `list.sort(key=lambda x: (x['type'] == 'file', x['path'].lower()))`
as a left-to-right stable insertion sort. -/
def sortEntries (l : List DirEntry) : List DirEntry :=
  l.foldl (fun acc x => insertSorted x acc) []

/-- `_build_file_list` applied to the children of the shared root. -/
def build_file_list (rootChildren : List FSNode) : List DirEntry :=
  sortEntries (rglobNodes [] rootChildren)

/-- A file entry as recorded by `_build_file_list_fallback` (lines
130-143): no `modified`, no `extension`. -/
def walkFileEntry (dirPath : List Char) : FSNode → Option DirEntry
  | .file n sz _ =>
    some
      { name := n, path := pathJoin dirPath n, type := tFile,
        size := sz, modified := none, extension := none }
  | .dir _ _ _ => none

mutual

/-- `os.walk` body for one directory (lines 120-143): this directory's
file entries in scan order, then the recursive walks of its
subdirectories, each preceded by its folder entry (no `modified`). -/
def fallbackWalk (relPath : List Char) (children : List FSNode) :
    List DirEntry :=
  children.filterMap (walkFileEntry relPath) ++
    fallbackSubdirs relPath children

/-- The subdirectory visits of `os.walk`, in scan order. -/
def fallbackSubdirs (relPath : List Char) : List FSNode → List DirEntry
  | [] => []
  | .file _ _ _ :: rest => fallbackSubdirs relPath rest
  | .dir n _ cs :: rest =>
    ({ name := n, path := pathJoin relPath n, type := tFolder, size := 0,
        modified := none, extension := none } ::
      fallbackWalk (pathJoin relPath n) cs) ++ fallbackSubdirs relPath rest

end

/-- `_build_file_list_fallback` applied to the children of the root
(the root itself, `rel_dir == '.'`, is skipped). -/
def build_file_list_fallback (rootChildren : List FSNode) : List DirEntry :=
  fallbackWalk [] rootChildren

/-- Sortedness by the Python key: no later entry compares strictly
below an earlier one. -/
def EntriesSorted (l : List DirEntry) : Prop :=
  l.Pairwise (fun a b => entryKeyLt b a = false)

theorem entryKeyLt_asymm (a b : DirEntry) (h : entryKeyLt a b = true) :
    entryKeyLt b a = false := by
  unfold entryKeyLt at *
  by_cases he : isFileKey a = isFileKey b
  · rw [if_pos he] at h
    rw [if_pos he.symm]
    simp only [decide_eq_true_eq] at h
    simp only [decide_eq_false_iff_not]
    exact lt_asymm h
  · rw [if_neg he] at h
    rw [if_neg (fun hx => he hx.symm)]
    simp only [decide_eq_true_eq] at h
    simp only [decide_eq_false_iff_not]
    exact lt_asymm h

theorem entryKeyLt_connex (a b c : DirEntry)
    (h : entryKeyLt c a = true) :
    entryKeyLt c b = true ∨ entryKeyLt b a = true := by
  unfold entryKeyLt at *
  rcases lt_trichotomy (isFileKey c) (isFileKey b) with hcb | hcb | hcb
  · left
    rw [if_neg (ne_of_lt hcb)]
    simpa using hcb
  · rcases lt_trichotomy (lowerPath c) (lowerPath b) with hp | hp | hp
    · left
      rw [if_pos hcb]
      simpa using hp
    · -- keys of c and b agree on the first component and paths are equal
      right
      by_cases hca : isFileKey c = isFileKey a
      · rw [if_pos hca] at h
        rw [if_pos (hcb ▸ hca)]
        simp only [decide_eq_true_eq] at h ⊢
        rw [← hp]
        exact h
      · rw [if_neg hca] at h
        rw [if_neg (hcb ▸ hca)]
        simp only [decide_eq_true_eq] at h ⊢
        rw [← hcb]
        exact h
      -- (unreachable with the remaining goal shapes)
    · right
      by_cases hca : isFileKey c = isFileKey a
      · rw [if_pos hca] at h
        rw [if_pos (hcb ▸ hca)]
        simp only [decide_eq_true_eq] at h ⊢
        calc lowerPath b < lowerPath c := hp
          _ < lowerPath a := h
      · rw [if_neg hca] at h
        rw [if_neg (hcb ▸ hca)]
        simp only [decide_eq_true_eq] at h ⊢
        rw [← hcb]
        exact h
  · right
    by_cases hba : isFileKey b = isFileKey a
    · -- b and a share the first key component, c is above b
      by_cases hca : isFileKey c = isFileKey a
      · exact absurd (hca.trans hba.symm) (ne_of_gt hcb)
      · rw [if_neg hca] at h
        rw [if_pos hba]
        exfalso
        rw [hba] at hcb
        simp only [decide_eq_true_eq] at h
        exact lt_asymm h hcb
    · rw [if_neg hba]
      by_cases hca : isFileKey c = isFileKey a
      · rw [if_pos hca] at h
        simp only [decide_eq_true_eq]
        rw [← hca]
        exact hcb
      · rw [if_neg hca] at h
        simp only [decide_eq_true_eq] at h ⊢
        -- Bool order: c > b and c < a force b < a
        rcases lt_trichotomy (isFileKey b) (isFileKey a) with hx | hx | hx
        · exact hx
        · exact absurd hx hba
        · exact absurd (lt_trans hx (lt_trans hcb h)) (lt_irrefl _)

theorem mem_insertSorted (x z : DirEntry) :
    ∀ l, z ∈ insertSorted x l → z = x ∨ z ∈ l := by
  intro l
  induction l with
  | nil => intro h; simpa [insertSorted] using h
  | cons y ys ih =>
    intro h
    have h2 : z ∈ (if entryKeyLt x y then x :: y :: ys
        else y :: insertSorted x ys) := h
    by_cases hc : entryKeyLt x y
    · rw [if_pos hc] at h2
      rcases List.mem_cons.mp h2 with h3 | h3
      · exact Or.inl h3
      · exact Or.inr h3
    · rw [if_neg hc] at h2
      rcases List.mem_cons.mp h2 with h3 | h3
      · exact Or.inr (by simp [h3])
      · rcases ih h3 with h4 | h4
        · exact Or.inl h4
        · exact Or.inr (List.mem_cons_of_mem _ h4)

theorem insertSorted_sorted (x : DirEntry) :
    ∀ l, EntriesSorted l → EntriesSorted (insertSorted x l) := by
  intro l
  induction l with
  | nil => intro _; simp [insertSorted, EntriesSorted]
  | cons y ys ih =>
    intro hl
    obtain ⟨hy, hys⟩ := List.pairwise_cons.mp hl
    unfold insertSorted
    split
    · next hlt =>
      refine List.pairwise_cons.mpr ⟨?_, hl⟩
      intro z hz
      rcases List.mem_cons.mp hz with hz | hz
      · rw [hz]
        exact entryKeyLt_asymm x y hlt
      · -- z after y: a strict `z < x` would force `z < y` or `y < x`
        cases hzx : entryKeyLt z x with
        | false => rfl
        | true =>
          rcases entryKeyLt_connex x y z hzx with h2 | h2
          · rw [hy z hz] at h2; exact h2.symm
          · rw [entryKeyLt_asymm x y hlt] at h2; exact h2.symm
    · next hnlt =>
      refine List.pairwise_cons.mpr ⟨?_, ih hys⟩
      intro z hz
      rcases mem_insertSorted x z ys hz with h2 | h2
      · rw [h2]
        exact Bool.eq_false_iff.mpr (fun hx => hnlt (by simpa using hx))
      · exact hy z h2

theorem sortEntries_sorted (l : List DirEntry) :
    EntriesSorted (sortEntries l) := by
  suffices h : ∀ acc, EntriesSorted acc →
      EntriesSorted (l.foldl (fun acc x => insertSorted x acc) acc) by
    exact h [] (by simp [EntriesSorted])
  induction l with
  | nil => exact fun acc h => h
  | cons x xs ih =>
    intro acc hacc
    exact ih _ (insertSorted_sorted x acc hacc)

/-- C5 counterexample: over the tree `{a.txt, b/c.txt}` the fallback
builder lists the file `a.txt` before the folder `b`, so its listing is
not sorted by `(type, path-lowercased)` (folders sort first). -/
theorem C5_counterexample :
    ¬ EntriesSorted (build_file_list_fallback
      [.file ['a', '.', 't', 'x', 't'] 1 0,
        .dir ['b'] 0 [.file ['c', '.', 't', 'x', 't'] 2 0]]) := by
  intro h
  have hlist : build_file_list_fallback
      [.file ['a', '.', 't', 'x', 't'] 1 0,
        .dir ['b'] 0 [.file ['c', '.', 't', 'x', 't'] 2 0]] =
      [{ name := ['a', '.', 't', 'x', 't'], path := ['a', '.', 't', 'x', 't'],
          type := tFile, size := 1, modified := none, extension := none },
        { name := ['b'], path := ['b'], type := tFolder, size := 0,
          modified := none, extension := none },
        { name := ['c', '.', 't', 'x', 't'],
          path := ['b', '/', 'c', '.', 't', 'x', 't'], type := tFile,
          size := 2, modified := none, extension := none }] := by
    simp [build_file_list_fallback, fallbackWalk, fallbackSubdirs,
      walkFileEntry, pathJoin]
  rw [hlist] at h
  obtain ⟨h1, -⟩ := List.pairwise_cons.mp h
  have h2 := h1 _ (List.mem_cons_self _ _)
  revert h2
  decide

/-- C5 amended: every listing produced by the primary builder
`_build_file_list` is sorted by `(type == 'file', path.lower())`; the
fallback builder emits entries in walk order and need not be sorted
(and both builders are deterministic functions of the tree, so repeated
listings of an unchanged tree coincide). -/
theorem C5_amended_primary_sorted (rootChildren : List FSNode) :
    EntriesSorted (build_file_list rootChildren) :=
  sortEntries_sorted (rglobNodes [] rootChildren)

/-! ### Parallel batch downloads (`download_files_parallel`,
client.py lines 283-332)

Folders are filtered out, files are processed in batches of
`batch_size` (default 50), per-file outcomes are tallied, and the run
succeeds iff at least one file succeeded.  The per-file download result
is an oracle `outcome`; completion order inside a batch does not affect
the tallies, so the batch is processed in order. -/

/-- One entry of the requested file list. -/
structure FileInfo where
  path : List Char
  type : List Char
  size : Nat
  deriving DecidableEq, Repr

/-- The batch slices `files_to_download[batch_start:batch_end]`
(lines 304-306).  `batchSize = 0` would make Python's `range` raise; it
yields no batches here. -/
def chunksOf (n : Nat) (l : List FileInfo) : List (List FileInfo) :=
  if h : l = [] ∨ n = 0 then []
  else l.take n :: chunksOf n (l.drop n)
termination_by l.length
decreasing_by
  simp only [not_or] at h
  have h1 : l ≠ [] := h.1
  have h2 : n ≠ 0 := h.2
  have : 0 < l.length := List.length_pos.mpr h1
  simp only [List.length_drop]
  omega

/-- Tally one batch (lines 308-323): each future's result bumps
`successful` or `failed`. -/
def processBatch (outcome : FileInfo → Bool) :
    List FileInfo → Nat × Nat → Nat × Nat
  | [], acc => acc
  | x :: xs, (s, f) =>
    processBatch outcome xs (if outcome x then (s + 1, f) else (s, f + 1))

/-- Tally all batches in order (lines 304-330). -/
def processBatches (outcome : FileInfo → Bool) :
    List (List FileInfo) → Nat × Nat → Nat × Nat
  | [], acc => acc
  | b :: bs, acc => processBatches outcome bs (processBatch outcome b acc)

/-- Result of `download_files_parallel`: the returned pair plus the two
tallies. -/
structure BatchResult where
  ok : Bool
  message : String
  successful : Nat
  failed : Nat
  deriving DecidableEq, Repr

/-- `download_files_parallel` (lines 283-332): filter folders out,
batch, tally, and return `(successful > 0, message)`. -/
def download_files_parallel (fileList : List FileInfo)
    (outcome : FileInfo → Bool) (batchSize : Nat) : BatchResult :=
  let files := fileList.filter (fun f => decide (f.type = tFile))
  let sf := processBatches outcome (chunksOf batchSize files) (0, 0)
  { ok := decide (sf.1 > 0),
    message := "Downloaded " ++ toString sf.1 ++ " files, " ++
      toString sf.2 ++ " failed",
    successful := sf.1, failed := sf.2 }

/-- `batch_size=50` default (line 284). -/
def defaultBatchSize : Nat := 50

theorem processBatch_counts (outcome : FileInfo → Bool) :
    ∀ (b : List FileInfo) (s f : Nat),
      processBatch outcome b (s, f) =
        (s + b.countP outcome, f + b.countP (fun x => !outcome x)) := by
  intro b
  induction b with
  | nil => intro s f; simp [processBatch]
  | cons x xs ih =>
    intro s f
    rw [processBatch]
    cases hx : outcome x with
    | true =>
      rw [if_pos rfl, ih]
      simp [List.countP_cons, hx]
      omega
    | false =>
      rw [if_neg (by simp [hx]), ih]
      simp [List.countP_cons, hx]
      omega

theorem processBatches_chunks (outcome : FileInfo → Bool) (n : Nat)
    (hn : 0 < n) :
    ∀ (k : Nat) (l : List FileInfo), l.length ≤ k → ∀ s f,
      processBatches outcome (chunksOf n l) (s, f) =
        (s + l.countP outcome, f + l.countP (fun x => !outcome x)) := by
  intro k
  induction k with
  | zero =>
    intro l hl s f
    have h0 : l = [] := List.eq_nil_of_length_eq_zero (Nat.le_zero.mp hl)
    subst h0
    rw [chunksOf]
    simp [processBatches]
  | succ m ih =>
    intro l hl s f
    cases l with
    | nil =>
      rw [chunksOf]
      simp [processBatches]
    | cons x xs =>
      rw [chunksOf, dif_neg (by simp; omega)]
      rw [processBatches, processBatch_counts]
      rw [ih ((x :: xs).drop n)
        (by simp only [List.length_drop, List.length_cons] at hl ⊢; omega)]
      have hsplit : (x :: xs).countP outcome =
          ((x :: xs).take n).countP outcome +
            ((x :: xs).drop n).countP outcome := by
        conv_lhs => rw [← List.take_append_drop n (x :: xs)]
        rw [List.countP_append]
      have hsplit2 : (x :: xs).countP (fun y => !outcome y) =
          ((x :: xs).take n).countP (fun y => !outcome y) +
            ((x :: xs).drop n).countP (fun y => !outcome y) := by
        conv_lhs => rw [← List.take_append_drop n (x :: xs)]
        rw [List.countP_append]
      rw [hsplit, hsplit2]
      simp [Nat.add_assoc]

/-- C6: over a request list of `N` files (no folders) of which `M`
fail, the batch engine reports exactly `N - M` successes and `M`
failures, processes every file (the tallies sum to `N`, no abort on a
failure), and reports overall success iff `N - M > 0`. -/
theorem C6_batch_partial_failure (fileList : List FileInfo)
    (outcome : FileInfo → Bool) (batchSize : Nat) (hbs : 0 < batchSize)
    (hall : ∀ f ∈ fileList, f.type = tFile) :
    (download_files_parallel fileList outcome batchSize).successful =
      fileList.length - (fileList.filter (fun f => !outcome f)).length ∧
    (download_files_parallel fileList outcome batchSize).failed =
      (fileList.filter (fun f => !outcome f)).length ∧
    (download_files_parallel fileList outcome batchSize).successful +
      (download_files_parallel fileList outcome batchSize).failed =
      fileList.length ∧
    ((download_files_parallel fileList outcome batchSize).ok = true ↔
      0 < fileList.length -
        (fileList.filter (fun f => !outcome f)).length) := by
  have hfilter : fileList.filter (fun f => decide (f.type = tFile)) =
      fileList := by
    apply List.filter_eq_self.mpr
    intro f hf
    simp [hall f hf]
  simp only [download_files_parallel, hfilter]
  rw [processBatches_chunks outcome batchSize hbs fileList.length fileList
    (le_refl _) 0 0]
  have hM : (fileList.filter (fun f => !outcome f)).length =
      fileList.countP (fun f => !outcome f) := (List.countP_eq_length_filter _ _).symm
  have hsum : fileList.countP outcome +
      fileList.countP (fun f => !outcome f) = fileList.length := by
    have hnot : (fun f : FileInfo => !outcome f) =
        (fun a : FileInfo => decide (¬outcome a = true)) := by
      funext a; cases outcome a <;> simp
    rw [hnot, fileList.length_eq_countP_add_countP outcome]
  rw [hM]
  refine ⟨by simp; omega, by simp, by simp; omega, ?_⟩
  simp only [decide_eq_true_eq, Nat.zero_add]
  constructor
  · intro h; omega
  · intro h; omega

/-- Witness for C6: three files of which one fails — 2 successes, 1
failure, overall success. -/
theorem C6_batch_partial_failure_witness :
    0 < 50 ∧
    (∀ f ∈ [{ path := ['a'], type := tFile, size := 1 : FileInfo },
        { path := ['b'], type := tFile, size := 2 : FileInfo },
        { path := ['c'], type := tFile, size := 3 : FileInfo }],
      f.type = tFile) ∧
    ((download_files_parallel
        [{ path := ['a'], type := tFile, size := 1 },
          { path := ['b'], type := tFile, size := 2 },
          { path := ['c'], type := tFile, size := 3 }]
        (fun f => decide (f.path ≠ ['b'])) 50).successful =
      ([{ path := ['a'], type := tFile, size := 1 : FileInfo },
          { path := ['b'], type := tFile, size := 2 : FileInfo },
          { path := ['c'], type := tFile, size := 3 : FileInfo }].length) -
        ([{ path := ['a'], type := tFile, size := 1 : FileInfo },
          { path := ['b'], type := tFile, size := 2 : FileInfo },
          { path := ['c'], type := tFile, size := 3 : FileInfo }].filter
            (fun f => !decide (f.path ≠ ['b']))).length ∧
      (download_files_parallel
        [{ path := ['a'], type := tFile, size := 1 },
          { path := ['b'], type := tFile, size := 2 },
          { path := ['c'], type := tFile, size := 3 }]
        (fun f => decide (f.path ≠ ['b'])) 50).failed =
        ([{ path := ['a'], type := tFile, size := 1 : FileInfo },
          { path := ['b'], type := tFile, size := 2 : FileInfo },
          { path := ['c'], type := tFile, size := 3 : FileInfo }].filter
            (fun f => !decide (f.path ≠ ['b']))).length ∧
      (download_files_parallel
        [{ path := ['a'], type := tFile, size := 1 },
          { path := ['b'], type := tFile, size := 2 },
          { path := ['c'], type := tFile, size := 3 }]
        (fun f => decide (f.path ≠ ['b'])) 50).successful +
        (download_files_parallel
          [{ path := ['a'], type := tFile, size := 1 },
            { path := ['b'], type := tFile, size := 2 },
            { path := ['c'], type := tFile, size := 3 }]
          (fun f => decide (f.path ≠ ['b'])) 50).failed =
        ([{ path := ['a'], type := tFile, size := 1 : FileInfo },
          { path := ['b'], type := tFile, size := 2 : FileInfo },
          { path := ['c'], type := tFile, size := 3 : FileInfo }].length) ∧
      ((download_files_parallel
          [{ path := ['a'], type := tFile, size := 1 },
            { path := ['b'], type := tFile, size := 2 },
            { path := ['c'], type := tFile, size := 3 }]
          (fun f => decide (f.path ≠ ['b'])) 50).ok = true ↔
        0 < ([{ path := ['a'], type := tFile, size := 1 : FileInfo },
            { path := ['b'], type := tFile, size := 2 : FileInfo },
            { path := ['c'], type := tFile, size := 3 : FileInfo }].length) -
          ([{ path := ['a'], type := tFile, size := 1 : FileInfo },
            { path := ['b'], type := tFile, size := 2 : FileInfo },
            { path := ['c'], type := tFile, size := 3 : FileInfo }].filter
              (fun f => !decide (f.path ≠ ['b']))).length)) :=
  ⟨by decide, by decide,
    C6_batch_partial_failure
      [{ path := ['a'], type := tFile, size := 1 },
        { path := ['b'], type := tFile, size := 2 },
        { path := ['c'], type := tFile, size := 3 }]
      (fun f => decide (f.path ≠ ['b'])) 50 (by decide) (by decide)⟩

/-! ### Directory cache (`_get_cached_file_list`, server.py lines 34-73)

`_dir_cache` is a dict keyed by shared root; Python dicts preserve
insertion order, so the cache is an association list.  `min(keys,
key=timestamp)` picks the first key of minimal timestamp in iteration
order. -/

/-- One cache slot (lines 59-65). -/
structure CacheEntry where
  data : List DirEntry
  timestamp : Nat
  dirMtime : Nat
  hits : Nat
  size : Nat
  deriving DecidableEq, Repr

/-- The `_dir_cache` dict in insertion order. -/
abbrev DirCache := List (List Char × CacheEntry)

/-- Dict lookup. -/
def dictGet : DirCache → List Char → Option CacheEntry
  | [], _ => none
  | (k2, v) :: rest, k => if k2 = k then some v else dictGet rest k

/-- Dict assignment: replace in place, else append (Python dict
insertion order). -/
def dictSet : DirCache → List Char → CacheEntry → DirCache
  | [], k, v => [(k, v)]
  | (k2, v2) :: rest, k, v =>
    if k2 = k then (k2, v) :: rest else (k2, v2) :: dictSet rest k v

/-- `del cache[k]`: drop the first slot with key `k`. -/
def dictDelete : DirCache → List Char → DirCache
  | [], _ => []
  | (k2, v2) :: rest, k =>
    if k2 = k then rest else (k2, v2) :: dictDelete rest k

/-- `min(cache.keys(), key=lambda k: cache[k]['timestamp'])` with its
slot: first minimal timestamp in iteration order (lines 69-70). -/
def oldestEntry : DirCache → Option (List Char × CacheEntry)
  | [] => none
  | (k, v) :: rest =>
    match oldestEntry rest with
    | none => some (k, v)
    | some (k2, v2) =>
      if v.timestamp ≤ v2.timestamp then some (k, v) else some (k2, v2)

/-- `_cache_ttl = 120` (line 28). -/
def cacheTtl : Nat := 120

/-- The slot stored on rebuild (lines 59-65); when `getmtime` raised,
`dir_mtime` falls back to `current_time` (line 62). -/
def mkCacheEntry (tree : List FSNode) (currentTime : Nat)
    (mtime : Option Nat) : CacheEntry :=
  { data := build_file_list tree, timestamp := currentTime,
    dirMtime := mtime.getD currentTime, hits := 0,
    size := (build_file_list tree).length }

/-- Rebuild, store, and evict beyond 5 slots (lines 57-73). -/
def rebuildCache (cache : DirCache) (baseDir : List Char)
    (currentTime : Nat) (mtime : Option Nat) (tree : List FSNode) :
    List DirEntry × DirCache :=
  let entry := mkCacheEntry tree currentTime mtime
  let cache1 := dictSet cache baseDir entry
  let cache2 :=
    if cache1.length > 5 then
      match oldestEntry cache1 with
      | some (k, _) => dictDelete cache1 k
      | none => cache1
    else cache1
  ((mkCacheEntry tree currentTime mtime).data, cache2)

/-- `_get_cached_file_list` (lines 34-73): fresh hit bumps `hits`;
unchanged directory mtime refreshes the timestamp; otherwise rebuild.
`mtime` is `os.path.getmtime(base_dir)` (`none` when it raised
`OSError`). -/
def getCachedFileList (cache : DirCache) (baseDir : List Char)
    (currentTime : Nat) (mtime : Option Nat) (tree : List FSNode) :
    List DirEntry × DirCache :=
  match dictGet cache baseDir with
  | some e =>
    if currentTime < e.timestamp + cacheTtl then
      (e.data, dictSet cache baseDir { e with hits := e.hits + 1 })
    else
      match mtime with
      | some mt =>
        if e.dirMtime = mt then
          (e.data, dictSet cache baseDir { e with timestamp := currentTime })
        else rebuildCache cache baseDir currentTime (some mt) tree
      | none => rebuildCache cache baseDir currentTime none tree
  | none => rebuildCache cache baseDir currentTime mtime tree

theorem dictSet_length_of_get_some (k : List Char) (v : CacheEntry) :
    ∀ m : DirCache, (dictGet m k).isSome →
      (dictSet m k v).length = m.length := by
  intro m
  induction m with
  | nil => intro h; simp [dictGet] at h
  | cons p rest ih =>
    intro h
    obtain ⟨k2, v2⟩ := p
    by_cases hk : k2 = k
    · simp [dictSet, hk]
    · rw [dictGet, if_neg hk] at h
      simp [dictSet, hk, ih h]

theorem dictSet_length_le (k : List Char) (v : CacheEntry) :
    ∀ m : DirCache, (dictSet m k v).length ≤ m.length + 1 := by
  intro m
  induction m with
  | nil => simp [dictSet]
  | cons p rest ih =>
    obtain ⟨k2, v2⟩ := p
    by_cases hk : k2 = k
    · simp [dictSet, hk]
    · simp only [dictSet, if_neg hk, List.length_cons]
      omega

theorem dictDelete_length_of_mem (k : List Char) (v : CacheEntry) :
    ∀ m : DirCache, (k, v) ∈ m →
      m.length = (dictDelete m k).length + 1 := by
  intro m
  induction m with
  | nil => intro h; simp at h
  | cons p rest ih =>
    intro h
    obtain ⟨k2, v2⟩ := p
    by_cases hk : k2 = k
    · simp [dictDelete, hk]
    · rcases List.mem_cons.mp h with h2 | h2
      · exact absurd (congrArg Prod.fst h2).symm hk
      · simp only [dictDelete, if_neg hk, List.length_cons]
        rw [ih h2]

theorem oldestEntry_eq_none (m : DirCache) (h : oldestEntry m = none) :
    m = [] := by
  cases m with
  | nil => rfl
  | cons p rest =>
    obtain ⟨k, v⟩ := p
    exfalso
    cases ho : oldestEntry rest with
    | none => simp [oldestEntry, ho] at h
    | some w =>
      obtain ⟨k2, v2⟩ := w
      simp only [oldestEntry, ho] at h
      revert h
      split <;> simp

theorem oldestEntry_spec :
    ∀ (m : DirCache) (k : List Char) (v : CacheEntry),
      oldestEntry m = some (k, v) →
      (k, v) ∈ m ∧ ∀ p ∈ m, v.timestamp ≤ p.2.timestamp := by
  intro m
  induction m with
  | nil => intro k v h; simp [oldestEntry] at h
  | cons p rest ih =>
    intro k v h
    obtain ⟨k1, v1⟩ := p
    cases ho : oldestEntry rest with
    | none =>
      have hrest : rest = [] := oldestEntry_eq_none rest ho
      subst hrest
      simp only [oldestEntry] at h
      injection h with h2
      cases h2
      simp
    | some w =>
      obtain ⟨k2, v2⟩ := w
      obtain ⟨hmem2, hmin2⟩ := ih k2 v2 ho
      simp only [oldestEntry, ho] at h
      by_cases hcmp : v1.timestamp ≤ v2.timestamp
      · rw [if_pos hcmp] at h
        injection h with h2
        cases h2
        refine ⟨List.mem_cons_self _ _, ?_⟩
        intro q hq
        rcases List.mem_cons.mp hq with h3 | h3
        · simp [h3]
        · exact le_trans hcmp (hmin2 q h3)
      · rw [if_neg hcmp] at h
        injection h with h2
        cases h2
        refine ⟨List.mem_cons_of_mem _ hmem2, ?_⟩
        intro q hq
        rcases List.mem_cons.mp hq with h3 | h3
        · simp [h3]
          omega
        · exact hmin2 q h3

theorem rebuildCache_capacity (cache : DirCache) (baseDir : List Char)
    (currentTime : Nat) (mtime : Option Nat) (tree : List FSNode)
    (hlen : cache.length ≤ 5) :
    (rebuildCache cache baseDir currentTime mtime tree).2.length ≤ 5 := by
  unfold rebuildCache
  simp only
  set cache1 := dictSet cache baseDir (mkCacheEntry tree currentTime mtime)
    with hc1
  have hlen1 : cache1.length ≤ cache.length + 1 :=
    dictSet_length_le baseDir (mkCacheEntry tree currentTime mtime) cache
  by_cases hover : cache1.length > 5
  · rw [if_pos hover]
    cases ho : oldestEntry cache1 with
    | none =>
      have : cache1 = [] := oldestEntry_eq_none cache1 ho
      rw [this] at hover
      simp at hover
    | some w =>
      obtain ⟨k, v⟩ := w
      obtain ⟨hmem, -⟩ := oldestEntry_spec cache1 k v ho
      have := dictDelete_length_of_mem k v cache1 hmem
      simp only
      omega
  · rw [if_neg hover]
    omega

/-- C7: starting from a cache within its 5-root bound, every
`_get_cached_file_list` call leaves at most 5 snapshots; and when the
rebuild insertion pushes the count past 5, the evicted slot is exactly
the first one of minimal timestamp. -/
theorem C7_cache_capacity_eviction (cache : DirCache) (baseDir : List Char)
    (currentTime : Nat) (mtime : Option Nat) (tree : List FSNode)
    (hlen : cache.length ≤ 5) :
    (getCachedFileList cache baseDir currentTime mtime tree).2.length ≤ 5 ∧
    ((dictSet cache baseDir (mkCacheEntry tree currentTime mtime)).length >
        5 →
      ∃ k v,
        oldestEntry
          (dictSet cache baseDir (mkCacheEntry tree currentTime mtime)) =
          some (k, v) ∧
        (k, v) ∈ dictSet cache baseDir (mkCacheEntry tree currentTime mtime) ∧
        (∀ p ∈ dictSet cache baseDir (mkCacheEntry tree currentTime mtime),
          v.timestamp ≤ p.2.timestamp) ∧
        (rebuildCache cache baseDir currentTime mtime tree).2 =
          dictDelete
            (dictSet cache baseDir (mkCacheEntry tree currentTime mtime))
            k) := by
  constructor
  · unfold getCachedFileList
    cases hg : dictGet cache baseDir with
    | some e =>
      simp only
      split
      · have := dictSet_length_of_get_some baseDir
          { e with hits := e.hits + 1 } cache (by rw [hg]; rfl)
        simp only
        omega
      · cases mtime with
        | some mt =>
          simp only
          split
          · have := dictSet_length_of_get_some baseDir
              { e with timestamp := currentTime } cache (by rw [hg]; rfl)
            simp only
            omega
          · exact rebuildCache_capacity cache baseDir currentTime
              (some mt) tree hlen
        | none =>
          exact rebuildCache_capacity cache baseDir currentTime none tree
            hlen
    | none =>
      exact rebuildCache_capacity cache baseDir currentTime mtime tree hlen
  · intro hover
    set cache1 := dictSet cache baseDir (mkCacheEntry tree currentTime mtime)
      with hc1
    cases ho : oldestEntry cache1 with
    | none =>
      have : cache1 = [] := oldestEntry_eq_none cache1 ho
      rw [this] at hover
      simp at hover
    | some w =>
      obtain ⟨k, v⟩ := w
      obtain ⟨hmem, hmin⟩ := oldestEntry_spec cache1 k v ho
      refine ⟨k, v, rfl, hmem, hmin, ?_⟩
      unfold rebuildCache
      simp only
      rw [← hc1, if_pos hover, ho]

/-- A bare cache slot with a given timestamp, for concrete runs. -/
def slot (t : Nat) : CacheEntry :=
  { data := [], timestamp := t, dirMtime := 0, hits := 0, size := 0 }

/-- Witness for C7: a full 5-root cache and a rebuild for a sixth root
keeps the cache at 5 slots. -/
theorem C7_cache_capacity_eviction_witness :
    ([(['a'], slot 3), (['b'], slot 1), (['c'], slot 2), (['d'], slot 4),
        (['e'], slot 5)] : DirCache).length ≤ 5 ∧
    (getCachedFileList
      [(['a'], slot 3), (['b'], slot 1), (['c'], slot 2), (['d'], slot 4),
        (['e'], slot 5)]
      ['f'] 100 none []).2.length ≤ 5 := by
  refine ⟨by decide, ?_⟩
  have h := C7_cache_capacity_eviction
    [(['a'], slot 3), (['b'], slot 1), (['c'], slot 2), (['d'], slot 4),
      (['e'], slot 5)]
    ['f'] 100 none [] (by decide)
  exact h.1

/-! ### Archive temp-file cleanup (`_handle_download_all`, server.py
lines 306-353)

The handler creates a named temporary file, builds and streams the zip
inside a `try`, and unlinks the temp path in the `finally` block.  Each
phase of the body may raise; the finalizer runs on every path and
removes the file (the unlink of an existing file owned by the handler
succeeds; its `except OSError: pass` guard is for the path already being
gone). -/

/-- The fallible phases of the archive handler's `try` body. -/
inductive ArchiveStep where
  | buildZip
  | getSize
  | sendHeaders
  | sendChunks
  deriving DecidableEq, Repr

/-- Filesystem state visible to the handler: whether the temporary
archive file currently exists. -/
structure ArchiveFSState where
  tempExists : Bool
  deriving DecidableEq, Repr

/-- The `try` body (lines 319-347) run in order; the first failing
phase raises and aborts the rest. -/
def archiveBody (fails : ArchiveStep → Bool) : Except ArchiveStep Unit :=
  if fails .buildZip then .error .buildZip
  else if fails .getSize then .error .getSize
  else if fails .sendHeaders then .error .sendHeaders
  else if fails .sendChunks then .error .sendChunks
  else .ok ()

/-- `try ... finally ...`: the finalizer transforms the state on every
path, and the body's outcome (normal or exceptional) propagates. -/
def tryFinally {σ ε : Type} (body : σ → Except ε Unit × σ)
    (finalizer : σ → σ) (s : σ) : Except ε Unit × σ :=
  let r := body s
  (r.1, finalizer r.2)

/-- `_handle_download_all`: create the temp file (line 316), run the
body, and `os.unlink(temp_path)` in `finally` (lines 349-353). -/
def handle_download_all (fails : ArchiveStep → Bool) :
    Except ArchiveStep Unit × ArchiveFSState :=
  tryFinally (fun s => (archiveBody fails, s))
    (fun s => { s with tempExists := false })
    { tempExists := true }

/-- C8: on every path of the archive handler — success or any phase
raising — the temporary archive file is removed before the handler
returns; the body's outcome still propagates. -/
theorem C8_temp_cleanup (fails : ArchiveStep → Bool) :
    (handle_download_all fails).2.tempExists = false ∧
    ((handle_download_all fails).1 = Except.ok () ↔
      (fails .buildZip = false ∧ fails .getSize = false ∧
        fails .sendHeaders = false ∧ fails .sendChunks = false)) := by
  refine ⟨rfl, ?_⟩
  unfold handle_download_all tryFinally archiveBody
  simp only
  constructor
  · intro h
    by_cases h1 : fails .buildZip = true
    · rw [if_pos h1] at h; exact absurd h (by simp)
    · rw [if_neg h1] at h
      by_cases h2 : fails .getSize = true
      · rw [if_pos h2] at h; exact absurd h (by simp)
      · rw [if_neg h2] at h
        by_cases h3 : fails .sendHeaders = true
        · rw [if_pos h3] at h; exact absurd h (by simp)
        · rw [if_neg h3] at h
          by_cases h4 : fails .sendChunks = true
          · rw [if_pos h4] at h; exact absurd h (by simp)
          · exact ⟨Bool.eq_false_iff.mpr h1, Bool.eq_false_iff.mpr h2,
              Bool.eq_false_iff.mpr h3, Bool.eq_false_iff.mpr h4⟩
  · rintro ⟨h1, h2, h3, h4⟩
    rw [h1, h2, h3, h4]
    rfl

end LanShare
